import Mathlib

/-!
Verification of the Okey hand solver (okey_ilp.py and api.py).

The development shallowly embeds the tile model (`Piece.__init__`), the meld
enumerator (`OkeyILPSolver._enumerate_melds`), the 0/1 set-packing formulation
and result extraction (`OkeyILPSolver.solve`), and the response construction of
the API handler (`solve_okey_hand`).  The external integer optimizer is modelled
by quantifying over assignments of the binary decision variables and assuming,
where a claim assumes it, that the assignment is feasible and optimal.
-/

namespace Okey

/-- Tile role tag, mirroring the `Piece.type` strings
"okey", "fake_okey" and "piece". -/
inductive PieceType
  | okey
  | fakeOkey
  | piece
deriving DecidableEq, Repr

/-- A resolved tile (`Piece` in okey_ilp.py).  Color and number are optional:
a joker built without an indicator gets `None` for both, and a raw descriptor
may carry a `None` number. -/
structure Piece where
  color : Option String
  number : Option Int
  type : PieceType
deriving DecidableEq, Repr

/-- A raw input tile descriptor (`PieceData` in api.py): a color string and an
optional number. -/
structure RawPiece where
  color : String
  number : Option Int
deriving DecidableEq, Repr

/-- Python constructor `Piece.__init__`: classify by the color marker and resolve jokers from the
indicator.  A real joker adopts the indicator color and number; a fake joker
adopts the indicator color and number `(okey_number % 13) + 1`; every other
descriptor passes its color and number through unchanged, with no validation. -/
def mkPiece (color : String) (number : Option Int)
    (okeyColor : Option String) (okeyNumber : Option Int) : Piece :=
  if color = "okey" then
    { color := okeyColor, number := okeyNumber, type := .okey }
  else if color = "fake_okey" then
    { color := okeyColor, number := okeyNumber.map (fun n => n % 13 + 1),
      type := .fakeOkey }
  else
    { color := some color, number := number, type := .piece }

/-- Python constructor `OkeyILPSolver.__init__`: build the tile list in input order. -/
def buildTiles (pieces : List RawPiece) (okeyColor : Option String)
    (okeyNumber : Option Int) : List Piece :=
  pieces.map (fun p => mkPiece p.color p.number okeyColor okeyNumber)

/-- Placeholder piece for out-of-range indexing; the solver only ever indexes
the hand with indices it produced itself, which are in range. -/
def defaultPiece : Piece := { color := none, number := none, type := .piece }

/-- Indexing `self.tiles[i]`. -/
def tileAt (tiles : List Piece) (i : Nat) : Piece := tiles.getD i defaultPiece

/-- Embeds `self.joker_indices`. -/
def jokerIndices (tiles : List Piece) : List Nat :=
  (List.range tiles.length).filter (fun i => decide ((tileAt tiles i).type = .okey))

/-- Embeds `self.non_joker_indices`. -/
def nonJokerIndices (tiles : List Piece) : List Nat :=
  (List.range tiles.length).filter (fun i => decide ((tileAt tiles i).type ≠ .okey))

/-- The pool `real_idxs` gathered by the Set pass for one rank. -/
def setRealIdxs (tiles : List Piece) (num : Int) : List Nat :=
  (nonJokerIndices tiles).filter (fun i => decide ((tileAt tiles i).number = some num))

/-- Set-pass candidates for one rank (`_enumerate_melds`, first pass, loop
body for one `num`): sizes 3 to `min 4 (reals + jokers)`, split into `r` real
indices and `size - r` joker indices, every combination of each. -/
def setMeldsFor (tiles : List Piece) (num : Int) : List (List Nat × Int) :=
  (List.range' 3 (min 4 ((setRealIdxs tiles num).length + (jokerIndices tiles).length) + 1 - 3)).flatMap
    (fun size =>
      (List.range' (max 1 (size - (jokerIndices tiles).length))
          (min size (setRealIdxs tiles num).length + 1 -
            max 1 (size - (jokerIndices tiles).length))).flatMap
        (fun r =>
          (List.sublistsLen r (setRealIdxs tiles num)).flatMap
            (fun realComb =>
              (List.sublistsLen (size - r) (jokerIndices tiles)).map
                (fun jokerComb => (realComb ++ jokerComb, num * (size : Int))))))

/-- All Set-pass candidates (`for num in range(1, 14)`). -/
def setMelds (tiles : List Piece) : List (List Nat × Int) :=
  (List.range' 1 13).flatMap (fun num => setMeldsFor tiles ((num : Nat) : Int))

/-- The colors iterated by the Run pass (`set(t.color for t in tiles if
t.type != 'okey')`); Python set order is unspecified, only membership matters
downstream. -/
def handColors (tiles : List Piece) : List (Option String) :=
  ((tiles.filter (fun t => decide (t.type ≠ .okey))).map (fun t => t.color)).dedup

/-- The dictionary `num_to_idx` of the Run pass: for duplicate numbers the dict
comprehension keeps the last index, so look up the last matching index. -/
def numToIdx (tiles : List Piece) (c : Option String) (n : Int) : Option Nat :=
  ((List.range tiles.length).filter (fun i =>
    decide ((tileAt tiles i).type ≠ .okey ∧ (tileAt tiles i).color = c ∧
      (tileAt tiles i).number = some n))).getLast?

/-- The list `real_idxs` of the Run pass for one window: the indices found for the
window's ranks, in rank order. -/
def windowRealIdxs (tiles : List Piece) (c : Option String) (start len : Nat) :
    List Nat :=
  (List.range' start len).filterMap (fun n => numToIdx tiles c ((n : Nat) : Int))

/-- Run-pass candidates for one color, window start and window length: if the
missing ranks can be covered by jokers and at least one rank is really present,
one candidate per joker combination, with the index list sorted ascending and
weight the sum of the window's ranks. -/
def runWindowMelds (tiles : List Piece) (c : Option String) (start len : Nat) :
    List (List Nat × Int) :=
  if len - (windowRealIdxs tiles c start len).length ≤ (jokerIndices tiles).length ∧
      1 ≤ (windowRealIdxs tiles c start len).length then
    (List.sublistsLen (len - (windowRealIdxs tiles c start len).length)
        (jokerIndices tiles)).map
      (fun jokerComb =>
        (List.insertionSort (· ≤ ·) (windowRealIdxs tiles c start len ++ jokerComb),
          ((List.range' start len).map (fun n => ((n : Nat) : Int))).sum))
  else []

/-- All Run-pass candidates (`for length in range(3, 14)`,
`for start in range(1, 14 - length + 1)`). -/
def runMelds (tiles : List Piece) : List (List Nat × Int) :=
  (handColors tiles).flatMap (fun c =>
    (List.range' 3 11).flatMap (fun len =>
      (List.range' 1 (14 - len)).flatMap (fun start =>
        runWindowMelds tiles c start len)))

/-- Embeds `OkeyILPSolver._enumerate_melds`: the Set pass followed by the Run pass. -/
def enumerateMelds (tiles : List Piece) : List (List Nat × Int) :=
  setMelds tiles ++ runMelds tiles

/-- The candidates whose binary decision variable is set in an assignment. -/
def chosen (ms : List (List Nat × Int)) (sel : List Bool) : List (List Nat × Int) :=
  (ms.zip sel).filterMap (fun p => if p.2 then some p.1 else none)

/-- The ILP objective: the summed weight of the selected candidates. -/
def objective (ms : List (List Nat × Int)) (sel : List Bool) : Int :=
  ((chosen ms sel).map (fun m => m.2)).sum

/-- ILP feasibility (`solve`, constraint loop): one variable per candidate and,
for every tile index of the hand, at most one selected candidate contains it. -/
def feasible (n : Nat) (ms : List (List Nat × Int)) (sel : List Bool) : Prop :=
  sel.length = ms.length ∧
    ∀ t ∈ List.range n,
      ((chosen ms sel).filter (fun m => decide (t ∈ m.1))).length ≤ 1

instance feasibleDecidable (n : Nat) (ms : List (List Nat × Int)) (sel : List Bool) :
    Decidable (feasible n ms sel) := by
  unfold feasible
  infer_instance

/-- All 0/1 assignments of a given number of decision variables. -/
def allSelections : Nat → List (List Bool)
  | 0 => [[]]
  | n + 1 => (allSelections n).flatMap (fun s => [false :: s, true :: s])

/-- An exact optimal assignment, as assumed of the external optimizer:
feasible, and no feasible assignment attains a larger objective. -/
def isOptimal (tiles : List Piece) (sel : List Bool) : Prop :=
  feasible tiles.length (enumerateMelds tiles) sel ∧
    ∀ sel2 ∈ allSelections (enumerateMelds tiles).length,
      feasible tiles.length (enumerateMelds tiles) sel2 →
        objective (enumerateMelds tiles) sel2 ≤ objective (enumerateMelds tiles) sel

instance isOptimalDecidable (tiles : List Piece) (sel : List Bool) :
    Decidable (isOptimal tiles sel) := by
  unfold isOptimal
  infer_instance

/-- Result extraction (`solve`, lines 122-128): the selected candidates in
enumeration order, each index list mapped back to the tiles. -/
def solveResult (tiles : List Piece) (sel : List Bool) : List (List Piece × Int) :=
  (chosen (enumerateMelds tiles) sel).map (fun m => (m.1.map (tileAt tiles), m.2))

/-- api.py total score accumulation: the sum of the returned meld weights. -/
def totalScore (result : List (List Piece × Int)) : Int :=
  (result.map (fun m => m.2)).sum

/-- Pairwise index-disjointness of the selected candidates, the spec's notion
of a legal packing. -/
def pairwiseDisjointSel (ms : List (List Nat × Int)) (sel : List Bool) : Prop :=
  (chosen ms sel).Pairwise (fun a b => ∀ i ∈ a.1, i ∉ b.1)

instance pairwiseDisjointSelDecidable (ms : List (List Nat × Int)) (sel : List Bool) :
    Decidable (pairwiseDisjointSel ms sel) := by
  unfold pairwiseDisjointSel
  infer_instance

/-- Modelled from the spec wording of the optimality property: the maximum
achievable total weight over all collections of pairwise index-disjoint
candidate melds enumerated from the hand. -/
def maxDisjointScore (tiles : List Piece) : Int :=
  (((allSelections (enumerateMelds tiles).length).filter
      (fun sel => decide (pairwiseDisjointSel (enumerateMelds tiles) sel))).map
    (objective (enumerateMelds tiles))).foldl max 0

/-- Python `str(...)` of an optional color, as interpolated by the handler's
f-string. -/
def pyStrOfOptStr : Option String → String
  | none => "None"
  | some s => s

/-- Python `str(...)` of an optional number, as interpolated by the handler's
f-string. -/
def pyStrOfOptInt : Option Int → String
  | none => "None"
  | some n => toString n

/-- api.py display rule (solve_okey_hand, lines 64-69): a real joker renders as
the literal "JOKER"; every other tile renders as color, space, number. -/
def renderPiece (p : Piece) : String :=
  if p.type = .okey then "JOKER"
  else pyStrOfOptStr p.color ++ " " ++ pyStrOfOptInt p.number

/-- api.py meld processing: render each returned meld's tiles, keep its
ILP weight. -/
def processMelds (result : List (List Piece × Int)) : List (List String × Int) :=
  result.map (fun m => (m.1.map renderPiece, m.2))

/-- The response record built by solve_okey_hand (execution time omitted: wall
clock time is outside the embedding). -/
structure OkeyResponse where
  melds : List (List String × Int)
  total_score : Int
  can_open : Bool
  number_of_triples : Int
  number_of_sides : Int
deriving DecidableEq, Repr

/-- api.py solve_okey_hand success path, parameterized by the optimizer's
assignment: build the tiles, solve, render, and derive the score fields.
`//` and `%` on a nonnegative score by the positive literal 3 agree with
`Int.ediv` and `Int.emod`. -/
def solveHandler (ps : List RawPiece) (okeyColor : String) (okeyNumber : Int)
    (sel : List Bool) : OkeyResponse :=
  { melds := processMelds (solveResult (buildTiles ps (some okeyColor) (some okeyNumber)) sel)
    total_score := totalScore (solveResult (buildTiles ps (some okeyColor) (some okeyNumber)) sel)
    can_open := decide (101 ≤ totalScore (solveResult (buildTiles ps (some okeyColor) (some okeyNumber)) sel))
    number_of_triples := Int.ediv (totalScore (solveResult (buildTiles ps (some okeyColor) (some okeyNumber)) sel)) 3
    number_of_sides := Int.emod (totalScore (solveResult (buildTiles ps (some okeyColor) (some okeyNumber)) sel)) 3 }

lemma mem_jokerIndices {tiles : List Piece} {i : Nat} :
    i ∈ jokerIndices tiles ↔ i < tiles.length ∧ (tileAt tiles i).type = .okey := by
  simp [jokerIndices, List.mem_filter, List.mem_range]

lemma mem_nonJokerIndices {tiles : List Piece} {i : Nat} :
    i ∈ nonJokerIndices tiles ↔ i < tiles.length ∧ (tileAt tiles i).type ≠ .okey := by
  simp [nonJokerIndices, List.mem_filter, List.mem_range]

lemma mem_setRealIdxs {tiles : List Piece} {num : Int} {i : Nat} :
    i ∈ setRealIdxs tiles num ↔
      i < tiles.length ∧ (tileAt tiles i).type ≠ .okey ∧
        (tileAt tiles i).number = some num := by
  simp [setRealIdxs, List.mem_filter, mem_nonJokerIndices, and_assoc]

lemma sorted_jokerIndices (tiles : List Piece) :
    List.Sorted (· < ·) (jokerIndices tiles) :=
  (List.sorted_lt_range tiles.length).sublist (List.filter_sublist _)

lemma nodup_jokerIndices (tiles : List Piece) : (jokerIndices tiles).Nodup :=
  (List.filter_sublist _).nodup (List.nodup_range _)

lemma sorted_setRealIdxs (tiles : List Piece) (num : Int) :
    List.Sorted (· < ·) (setRealIdxs tiles num) :=
  (List.sorted_lt_range tiles.length).sublist
    ((List.filter_sublist _).trans (List.filter_sublist _))

lemma nodup_setRealIdxs (tiles : List Piece) (num : Int) :
    (setRealIdxs tiles num).Nodup :=
  ((List.filter_sublist _).trans (List.filter_sublist _)).nodup (List.nodup_range _)

lemma numToIdx_spec {tiles : List Piece} {c : Option String} {n : Int} {i : Nat}
    (h : numToIdx tiles c n = some i) :
    i < tiles.length ∧ (tileAt tiles i).type ≠ .okey ∧
      (tileAt tiles i).color = c ∧ (tileAt tiles i).number = some n := by
  have hm := List.mem_of_mem_getLast? (l := (List.range tiles.length).filter
    (fun i => decide ((tileAt tiles i).type ≠ .okey ∧ (tileAt tiles i).color = c ∧
      (tileAt tiles i).number = some n))) (a := i) (by simpa [numToIdx] using h)
  simp only [List.mem_filter, List.mem_range, decide_eq_true_eq] at hm
  exact ⟨hm.1, hm.2.1, hm.2.2.1, hm.2.2.2⟩

lemma getLast?_isMax :
    ∀ {l : List Nat}, List.Sorted (· < ·) l → ∀ {i : Nat}, l.getLast? = some i →
      ∀ j ∈ l, j ≤ i := by
  intro l
  induction l with
  | nil => simp
  | cons a t ih =>
    intro hs i h j hj
    cases t with
    | nil =>
      simp only [List.getLast?_singleton, Option.some_inj] at h
      simp only [List.mem_singleton] at hj
      omega
    | cons b t2 =>
      rw [List.getLast?_cons_cons] at h
      rcases List.mem_cons.mp hj with rfl | hj2
      · have hi_mem : i ∈ b :: t2 := List.mem_of_mem_getLast? (by simpa using h)
        exact le_of_lt ((List.sorted_cons.mp hs).1 i hi_mem)
      · exact ih (List.sorted_cons.mp hs).2 h j hj2

/-- The dict comprehension keeps the last index: any other index matching the
same color and number is at most the stored one. -/
lemma numToIdx_last {tiles : List Piece} {c : Option String} {n : Int} {i : Nat}
    (h : numToIdx tiles c n = some i) {j : Nat} (hj : j < tiles.length)
    (ht : (tileAt tiles j).type ≠ .okey) (hc : (tileAt tiles j).color = c)
    (hn : (tileAt tiles j).number = some n) : j ≤ i := by
  have hsorted : List.Sorted (· < ·) ((List.range tiles.length).filter
      (fun i => decide ((tileAt tiles i).type ≠ .okey ∧ (tileAt tiles i).color = c ∧
        (tileAt tiles i).number = some n))) :=
    (List.sorted_lt_range tiles.length).sublist (List.filter_sublist _)
  refine getLast?_isMax hsorted (by simpa [numToIdx] using h) j ?_
  simp only [List.mem_filter, List.mem_range, decide_eq_true_eq]
  exact ⟨hj, ht, hc, hn⟩

lemma mem_windowRealIdxs {tiles : List Piece} {c : Option String} {start len i : Nat}
    (h : i ∈ windowRealIdxs tiles c start len) :
    ∃ n : Nat, start ≤ n ∧ n < start + len ∧
      numToIdx tiles c ((n : Nat) : Int) = some i := by
  simp only [windowRealIdxs, List.mem_filterMap, List.mem_range'_1] at h
  obtain ⟨n, ⟨h1, h2⟩, h3⟩ := h
  exact ⟨n, h1, h2, h3⟩

lemma nodup_windowRealIdxs (tiles : List Piece) (c : Option String) (start len : Nat) :
    (windowRealIdxs tiles c start len).Nodup := by
  refine List.Nodup.filterMap ?_ (List.nodup_range' _ _)
  intro a a' b hb hb'
  have s1 := numToIdx_spec (Option.mem_def.mp hb)
  have s2 := numToIdx_spec (Option.mem_def.mp hb')
  have : ((a : Nat) : Int) = ((a' : Nat) : Int) := by
    have := s1.2.2.2.symm.trans s2.2.2.2
    exact Option.some_inj.mp this
  exact_mod_cast this

/-- Every Set-pass candidate decomposes into a combination of same-rank real
indices followed by a combination of joker indices. -/
lemma setMeldsFor_shape {tiles : List Piece} {num : Int} {m : List Nat × Int}
    (h : m ∈ setMeldsFor tiles num) :
    ∃ realComb jokerComb : List Nat,
      realComb.Sublist (setRealIdxs tiles num) ∧
      jokerComb.Sublist (jokerIndices tiles) ∧
      1 ≤ realComb.length ∧
      3 ≤ realComb.length + jokerComb.length ∧
      realComb.length + jokerComb.length ≤ 4 ∧
      m = (realComb ++ jokerComb,
        num * (((realComb.length + jokerComb.length : Nat)) : Int)) := by
  simp only [setMeldsFor, List.mem_flatMap, List.mem_map, List.mem_range'_1,
    List.mem_sublistsLen] at h
  obtain ⟨size, ⟨hs1, hs2⟩, r, ⟨hr1, hr2⟩, realComb, ⟨hrc, hrlen⟩, jokerComb,
    ⟨hjc, hjlen⟩, hm⟩ := h
  have hmin4 : min 4 ((setRealIdxs tiles num).length + (jokerIndices tiles).length) ≤ 4 :=
    min_le_left _ _
  have hminr : min size (setRealIdxs tiles num).length ≤ size := min_le_left _ _
  have hmax1 : 1 ≤ max 1 (size - (jokerIndices tiles).length) := le_max_left _ _
  have hlen : realComb.length + jokerComb.length = size := by omega
  refine ⟨realComb, jokerComb, hrc, hjc, by omega, by omega, by omega, ?_⟩
  rw [hlen]
  exact hm.symm

lemma mem_setMelds {tiles : List Piece} {m : List Nat × Int} :
    m ∈ setMelds tiles ↔
      ∃ num : Nat, 1 ≤ num ∧ num ≤ 13 ∧ m ∈ setMeldsFor tiles ((num : Nat) : Int) := by
  simp only [setMelds, List.mem_flatMap, List.mem_range'_1]
  constructor
  · rintro ⟨num, ⟨h1, h2⟩, hm⟩
    exact ⟨num, h1, by omega, hm⟩
  · rintro ⟨num, h1, h2, hm⟩
    exact ⟨num, ⟨h1, by omega⟩, hm⟩

/-- Every Run-pass window candidate is the sorted union of the window's real
indices and a combination of joker indices covering the missing ranks. -/
lemma runWindowMelds_shape {tiles : List Piece} {c : Option String} {start len : Nat}
    {m : List Nat × Int} (h : m ∈ runWindowMelds tiles c start len) :
    ∃ jokerComb : List Nat,
      jokerComb.Sublist (jokerIndices tiles) ∧
      jokerComb.length = len - (windowRealIdxs tiles c start len).length ∧
      len - (windowRealIdxs tiles c start len).length ≤ (jokerIndices tiles).length ∧
      1 ≤ (windowRealIdxs tiles c start len).length ∧
      m = (List.insertionSort (· ≤ ·) (windowRealIdxs tiles c start len ++ jokerComb),
        ((List.range' start len).map (fun n => ((n : Nat) : Int))).sum) := by
  by_cases hcond : len - (windowRealIdxs tiles c start len).length ≤
      (jokerIndices tiles).length ∧ 1 ≤ (windowRealIdxs tiles c start len).length
  · rw [runWindowMelds, if_pos hcond] at h
    simp only [List.mem_map, List.mem_sublistsLen] at h
    obtain ⟨jokerComb, ⟨hjc, hjlen⟩, hm⟩ := h
    exact ⟨jokerComb, hjc, hjlen, hcond.1, hcond.2, hm.symm⟩
  · rw [runWindowMelds, if_neg hcond] at h
    simp at h

lemma runMelds_shape {tiles : List Piece} {m : List Nat × Int}
    (h : m ∈ runMelds tiles) :
    ∃ (c : Option String) (start len : Nat), c ∈ handColors tiles ∧
      3 ≤ len ∧ len ≤ 13 ∧ 1 ≤ start ∧ start + len ≤ 14 ∧
      m ∈ runWindowMelds tiles c start len := by
  simp only [runMelds, List.mem_flatMap, List.mem_range'_1] at h
  obtain ⟨c, hc, len, ⟨h3, h13⟩, start, ⟨h1, h14⟩, hm⟩ := h
  exact ⟨c, start, len, hc, h3, by omega, h1, by omega, hm⟩

lemma mem_runMelds_intro {tiles : List Piece} {c : Option String} {start len : Nat}
    {m : List Nat × Int} (hc : c ∈ handColors tiles) (h3 : 3 ≤ len) (h13 : len ≤ 13)
    (h1 : 1 ≤ start) (h14 : start + len ≤ 14)
    (hm : m ∈ runWindowMelds tiles c start len) : m ∈ runMelds tiles := by
  simp only [runMelds, List.mem_flatMap, List.mem_range'_1]
  exact ⟨c, hc, len, ⟨h3, by omega⟩, start, ⟨h1, by omega⟩, hm⟩

/-- Real and joker index pools are disjoint: they have different type tags. -/
lemma disjoint_real_joker {tiles : List Piece} {num : Int} {realComb jokerComb : List Nat}
    (hrc : realComb.Sublist (setRealIdxs tiles num))
    (hjc : jokerComb.Sublist (jokerIndices tiles)) :
    realComb.Disjoint jokerComb := by
  intro a ha hb
  have h1 := (mem_setRealIdxs.mp (hrc.subset ha)).2.1
  have h2 := (mem_jokerIndices.mp (hjc.subset hb)).2
  exact h1 h2

lemma setMeldsFor_nodup_bound {tiles : List Piece} {num : Int} {m : List Nat × Int}
    (h : m ∈ setMeldsFor tiles num) :
    m.1.Nodup ∧ ∀ i ∈ m.1, i < tiles.length := by
  obtain ⟨realComb, jokerComb, hrc, hjc, -, -, -, hm⟩ := setMeldsFor_shape h
  subst hm
  constructor
  · exact List.Nodup.append (hrc.nodup (nodup_setRealIdxs tiles num))
      (hjc.nodup (nodup_jokerIndices tiles)) (disjoint_real_joker hrc hjc)
  · intro i hi
    rcases List.mem_append.mp hi with hir | hij
    · exact (mem_setRealIdxs.mp (hrc.subset hir)).1
    · exact (mem_jokerIndices.mp (hjc.subset hij)).1

lemma runWindowMelds_nodup_bound {tiles : List Piece} {c : Option String}
    {start len : Nat} {m : List Nat × Int} (h : m ∈ runWindowMelds tiles c start len) :
    m.1.Nodup ∧ ∀ i ∈ m.1, i < tiles.length := by
  obtain ⟨jokerComb, hjc, -, -, -, hm⟩ := runWindowMelds_shape h
  subst hm
  have hperm : (List.insertionSort (· ≤ ·)
      (windowRealIdxs tiles c start len ++ jokerComb)).Perm
      (windowRealIdxs tiles c start len ++ jokerComb) :=
    List.perm_insertionSort _ _
  have hdisj : (windowRealIdxs tiles c start len).Disjoint jokerComb := by
    intro a ha hb
    obtain ⟨n, -, -, hn⟩ := mem_windowRealIdxs ha
    exact (numToIdx_spec hn).2.1 (mem_jokerIndices.mp (hjc.subset hb)).2
  have hnodup : (windowRealIdxs tiles c start len ++ jokerComb).Nodup :=
    List.Nodup.append (nodup_windowRealIdxs tiles c start len)
      (hjc.nodup (nodup_jokerIndices tiles)) hdisj
  refine ⟨hperm.nodup_iff.mpr hnodup, ?_⟩
  intro i hi
  rcases List.mem_append.mp (hperm.subset hi) with hir | hij
  · exact (numToIdx_spec (mem_windowRealIdxs hir).choose_spec.2.2).1
  · exact (mem_jokerIndices.mp (hjc.subset hij)).1

/-- Every enumerated candidate has duplicate-free tile indices, all within the
hand. -/
lemma enumerateMelds_nodup_bound {tiles : List Piece} {m : List Nat × Int}
    (h : m ∈ enumerateMelds tiles) :
    m.1.Nodup ∧ ∀ i ∈ m.1, i < tiles.length := by
  rcases List.mem_append.mp h with hs | hr
  · exact setMeldsFor_nodup_bound (mem_setMelds.mp hs).choose_spec.2.2
  · obtain ⟨c, start, len, -, -, -, -, -, hm⟩ := runMelds_shape hr
    exact runWindowMelds_nodup_bound hm

lemma chosen_subset {ms : List (List Nat × Int)} {sel : List Bool}
    {m : List Nat × Int} (h : m ∈ chosen ms sel) : m ∈ ms := by
  simp only [chosen, List.mem_filterMap] at h
  obtain ⟨⟨a, b⟩, hab, hif⟩ := h
  cases b with
  | false => simp at hif
  | true =>
    simp only [if_pos, Option.some_inj] at hif
    exact hif ▸ (List.of_mem_zip hab).1

lemma mem_allSelections_iff {n : Nat} {sel : List Bool} :
    sel ∈ allSelections n ↔ sel.length = n := by
  induction n generalizing sel with
  | zero => cases sel <;> simp [allSelections]
  | succ k ih =>
    cases sel with
    | nil =>
      simp only [allSelections, List.mem_flatMap]
      constructor
      · rintro ⟨s, -, hmem⟩
        simp at hmem
      · intro hlen
        simp at hlen
    | cons b s =>
      simp only [allSelections, List.mem_flatMap, List.length_cons]
      constructor
      · rintro ⟨s2, hs2, hmem⟩
        simp only [List.mem_cons, List.mem_singleton] at hmem
        rcases hmem with h1 | h1 | h1
        · cases h1; simpa using ih.mp hs2
        · cases h1; simpa using ih.mp hs2
        · simp at h1
      · intro hlen
        refine ⟨s, ih.mpr (by omega), ?_⟩
        cases b <;> simp

lemma chosen_replicate_false (ms : List (List Nat × Int)) (n : Nat) :
    chosen ms (List.replicate n false) = [] := by
  rw [chosen, List.filterMap_eq_nil_iff]
  rintro ⟨a, b⟩ hab
  have hb : b = false := List.eq_of_mem_replicate (List.of_mem_zip hab).2
  simp [hb]

lemma feasible_replicate_false (n : Nat) (ms : List (List Nat × Int)) :
    feasible n ms (List.replicate ms.length false) :=
  ⟨List.length_replicate _ _, fun t _ => by simp [chosen_replicate_false]⟩

lemma objective_replicate_false (ms : List (List Nat × Int)) (n : Nat) :
    objective ms (List.replicate n false) = 0 := by
  simp [objective, chosen_replicate_false]

/-- Per-tile usage counts at most one force pairwise disjointness of the
selected candidates. -/
lemma pairwise_of_counts {N : Nat} :
    ∀ {l : List (List Nat × Int)},
      (∀ m ∈ l, ∀ i ∈ m.1, i < N) →
      (∀ t ∈ List.range N, (l.filter (fun m => decide (t ∈ m.1))).length ≤ 1) →
      l.Pairwise (fun a b => ∀ i ∈ a.1, i ∉ b.1) := by
  intro l
  induction l with
  | nil => simp
  | cons a l ih =>
    intro hb hc
    rw [List.pairwise_cons]
    constructor
    · intro b hbmem i hia hib
      have hiN : i < N := hb a (by simp) i hia
      have hcount := hc i (List.mem_range.mpr hiN)
      rw [List.filter_cons_of_pos (by simpa using hia)] at hcount
      have hbf : b ∈ l.filter (fun m => decide (i ∈ m.1)) :=
        List.mem_filter.mpr ⟨hbmem, by simpa using hib⟩
      have hpos : 0 < (l.filter (fun m => decide (i ∈ m.1))).length :=
        List.length_pos.mpr (List.ne_nil_of_mem hbf)
      simp only [List.length_cons] at hcount
      omega
    · refine ih (fun m hm => hb m (by simp [hm])) (fun t ht => ?_)
      have hcount := hc t ht
      rw [List.filter_cons] at hcount
      split at hcount
      · simp only [List.length_cons] at hcount
        omega
      · exact hcount

/-- Pairwise disjointness of the selected candidates forces per-tile usage
counts of at most one. -/
lemma counts_of_pairwise :
    ∀ {l : List (List Nat × Int)},
      l.Pairwise (fun a b => ∀ i ∈ a.1, i ∉ b.1) →
      ∀ t : Nat, (l.filter (fun m => decide (t ∈ m.1))).length ≤ 1 := by
  intro l
  induction l with
  | nil => simp
  | cons a l ih =>
    intro hp t
    obtain ⟨ha, hl⟩ := List.pairwise_cons.mp hp
    rw [List.filter_cons]
    split
    case isTrue h =>
      have hnil : l.filter (fun m => decide (t ∈ m.1)) = [] := by
        rw [List.filter_eq_nil_iff]
        intro b hb hdec
        exact ha b hb t (by simpa using h) (by simpa using hdec)
      simp [hnil]
    case isFalse h => simpa using ih hl t

/-- On the enumerated candidate list, ILP feasibility is exactly pairwise
index-disjointness of the selection. -/
lemma feasible_iff_disjoint {tiles : List Piece} {sel : List Bool}
    (hlen : sel.length = (enumerateMelds tiles).length) :
    feasible tiles.length (enumerateMelds tiles) sel ↔
      pairwiseDisjointSel (enumerateMelds tiles) sel := by
  constructor
  · rintro ⟨-, hc⟩
    exact pairwise_of_counts
      (fun m hm i hi => (enumerateMelds_nodup_bound (chosen_subset hm)).2 i hi) hc
  · intro hp
    exact ⟨hlen, fun t _ => counts_of_pairwise hp t⟩

lemma le_foldl_max_self : ∀ {l : List Int} (a : Int), a ≤ l.foldl max a := by
  intro l
  induction l with
  | nil => intro a; exact le_refl a
  | cons b l ih =>
    intro a
    exact le_trans (le_max_left a b) (ih (max a b))

lemma le_foldl_max_of_mem {x : Int} :
    ∀ {l : List Int} {a : Int}, x ∈ l → x ≤ l.foldl max a := by
  intro l
  induction l with
  | nil => simp
  | cons b l ih =>
    intro a hx
    rcases List.mem_cons.mp hx with rfl | h
    · exact le_trans (le_max_right a x) (le_foldl_max_self _)
    · exact ih h

lemma foldl_max_le {x : Int} :
    ∀ {l : List Int} {a : Int}, a ≤ x → (∀ y ∈ l, y ≤ x) → l.foldl max a ≤ x := by
  intro l
  induction l with
  | nil => intro a ha _; simpa using ha
  | cons b l ih =>
    intro a ha h
    exact ih (max_le ha (h b (by simp))) (fun y hy => h y (by simp [hy]))

lemma foldl_max_eq {l : List Int} {x : Int} (hx : x ∈ l) (hub : ∀ y ∈ l, y ≤ x)
    (h0 : 0 ≤ x) : l.foldl max 0 = x :=
  le_antisymm (foldl_max_le h0 hub) (le_foldl_max_of_mem hx)

lemma totalScore_solveResult (tiles : List Piece) (sel : List Bool) :
    totalScore (solveResult tiles sel) = objective (enumerateMelds tiles) sel := by
  simp only [totalScore, solveResult, objective, List.map_map]
  rfl

/-- Claim C1: for every hand, the total score returned by solve (the sum of the
weights of the chosen melds) equals the maximum achievable total weight over all
collections of pairwise index-disjoint candidate melds enumerated from that
hand, assuming the external integer optimizer returns an exact optimal
assignment. -/
theorem solve_total_score_optimal (tiles : List Piece) (sel : List Bool)
    (h : isOptimal tiles sel) :
    totalScore (solveResult tiles sel) = maxDisjointScore tiles := by
  obtain ⟨hfeas, hopt⟩ := h
  rw [totalScore_solveResult]
  have hfilters : (allSelections (enumerateMelds tiles).length).filter
        (fun s => decide (feasible tiles.length (enumerateMelds tiles) s)) =
      (allSelections (enumerateMelds tiles).length).filter
        (fun s => decide (pairwiseDisjointSel (enumerateMelds tiles) s)) :=
    List.filter_congr (fun s hs =>
      decide_eq_decide.mpr (feasible_iff_disjoint (mem_allSelections_iff.mp hs)))
  have hmem : objective (enumerateMelds tiles) sel ∈
      ((allSelections (enumerateMelds tiles).length).filter
        (fun s => decide (feasible tiles.length (enumerateMelds tiles) s))).map
      (objective (enumerateMelds tiles)) :=
    List.mem_map.mpr ⟨sel, List.mem_filter.mpr
      ⟨mem_allSelections_iff.mpr hfeas.1, by simpa using ⟨hfeas.1, hfeas.2⟩⟩, rfl⟩
  have hub : ∀ y ∈ ((allSelections (enumerateMelds tiles).length).filter
        (fun s => decide (feasible tiles.length (enumerateMelds tiles) s))).map
      (objective (enumerateMelds tiles)),
      y ≤ objective (enumerateMelds tiles) sel := by
    intro y hy
    obtain ⟨s, hsf, rfl⟩ := List.mem_map.mp hy
    obtain ⟨hsall, hsd⟩ := List.mem_filter.mp hsf
    exact hopt s hsall (of_decide_eq_true hsd)
  have h0 : 0 ≤ objective (enumerateMelds tiles) sel := by
    have hrep := hopt (List.replicate (enumerateMelds tiles).length false)
      (mem_allSelections_iff.mpr (List.length_replicate _ _))
      (feasible_replicate_false _ _)
    simpa [objective_replicate_false] using hrep
  have hfold := foldl_max_eq hmem hub h0
  rw [maxDisjointScore, ← hfilters, hfold]

theorem solve_total_score_optimal_witness :
    totalScore (solveResult (buildTiles [⟨"red", some 5⟩, ⟨"blue", some 5⟩,
        ⟨"black", some 5⟩] (some "green") (some 1)) [true]) =
      maxDisjointScore (buildTiles [⟨"red", some 5⟩, ⟨"blue", some 5⟩,
        ⟨"black", some 5⟩] (some "green") (some 1)) :=
  solve_total_score_optimal _ [true] (by decide)

/-- Claim C4: for every returned result, the tile-index sets of any two
distinct melds in the result are disjoint; consequently the number of joker
indices used across all returned melds never exceeds the number of joker tiles
in the hand. -/
theorem result_disjoint_joker_budget (tiles : List Piece) (sel : List Bool)
    (h : isOptimal tiles sel) :
    (chosen (enumerateMelds tiles) sel).Pairwise (fun a b => ∀ i ∈ a.1, i ∉ b.1) ∧
    (((chosen (enumerateMelds tiles) sel).flatMap (fun m => m.1)).filter
        (fun i => decide (i ∈ jokerIndices tiles))).length ≤
      (jokerIndices tiles).length := by
  have hdisj : (chosen (enumerateMelds tiles) sel).Pairwise
      (fun a b => ∀ i ∈ a.1, i ∉ b.1) := (feasible_iff_disjoint h.1.1).mp h.1
  refine ⟨hdisj, ?_⟩
  have hflat : (chosen (enumerateMelds tiles) sel).flatMap (fun m => m.1) =
      ((chosen (enumerateMelds tiles) sel).map (fun m => m.1)).flatten := rfl
  have hnodup : ((chosen (enumerateMelds tiles) sel).flatMap (fun m => m.1)).Nodup := by
    rw [hflat, List.nodup_flatten]
    constructor
    · intro l hl
      obtain ⟨m, hm, rfl⟩ := List.mem_map.mp hl
      exact (enumerateMelds_nodup_bound (chosen_subset hm)).1
    · rw [List.pairwise_map]
      exact hdisj.imp (fun {a b} hab => fun i hi => hab i hi)
  have hsub : (((chosen (enumerateMelds tiles) sel).flatMap (fun m => m.1)).filter
      (fun i => decide (i ∈ jokerIndices tiles))) ⊆ jokerIndices tiles := by
    intro i hi
    exact of_decide_eq_true (List.mem_filter.mp hi).2
  exact (List.subperm_of_subset (hnodup.filter _) hsub).length_le

theorem result_disjoint_joker_budget_witness :
    ((chosen (enumerateMelds (buildTiles [⟨"red", some 7⟩, ⟨"red", some 8⟩,
        ⟨"okey", none⟩] (some "red") (some 9))) [false, true]).Pairwise
      (fun a b => ∀ i ∈ a.1, i ∉ b.1)) ∧
    (((chosen (enumerateMelds (buildTiles [⟨"red", some 7⟩, ⟨"red", some 8⟩,
        ⟨"okey", none⟩] (some "red") (some 9))) [false, true]).flatMap
          (fun m => m.1)).filter
        (fun i => decide (i ∈ jokerIndices (buildTiles [⟨"red", some 7⟩,
          ⟨"red", some 8⟩, ⟨"okey", none⟩] (some "red") (some 9))))).length ≤
      (jokerIndices (buildTiles [⟨"red", some 7⟩, ⟨"red", some 8⟩, ⟨"okey", none⟩]
        (some "red") (some 9))).length :=
  result_disjoint_joker_budget _ [false, true] (by decide)

/-- Claim C7: a hand from which no meld can be enumerated is not an error: the
candidate list is empty, the returned meld list is empty (also after the API
renders it), and the total score is 0. -/
theorem empty_enumeration_result (tiles : List Piece) (sel : List Bool)
    (hE : enumerateMelds tiles = []) (h : isOptimal tiles sel) :
    solveResult tiles sel = [] ∧ totalScore (solveResult tiles sel) = 0 ∧
      processMelds (solveResult tiles sel) = [] := by
  have hsel : sel = [] := by
    have hlen := h.1.1
    rw [hE] at hlen
    exact List.length_eq_zero.mp (by simpa using hlen)
  subst hsel
  rw [solveResult, hE]
  simp [chosen, totalScore, processMelds]

theorem empty_enumeration_result_witness :
    solveResult (buildTiles [⟨"red", some 1⟩, ⟨"blue", some 9⟩, ⟨"black", some 3⟩]
        (some "green") (some 5)) [] = [] ∧
    totalScore (solveResult (buildTiles [⟨"red", some 1⟩, ⟨"blue", some 9⟩,
        ⟨"black", some 3⟩] (some "green") (some 5)) []) = 0 ∧
    processMelds (solveResult (buildTiles [⟨"red", some 1⟩, ⟨"blue", some 9⟩,
        ⟨"black", some 3⟩] (some "green") (some 5)) []) = [] :=
  empty_enumeration_result _ [] (by decide) (by decide)

lemma tileAt_buildTiles (ps : List RawPiece) (c : Option String) (r : Option Int)
    {i : Nat} (hi : i < ps.length) :
    tileAt (buildTiles ps c r) i =
      mkPiece (ps.getD i ⟨"", none⟩).color (ps.getD i ⟨"", none⟩).number c r := by
  rw [tileAt, buildTiles, List.getD_eq_getElem?_getD, List.getD_eq_getElem?_getD,
    List.getElem?_map, (List.getElem?_eq_some_getElem_iff ps i hi).mpr trivial]
  rfl

/-- Claim C5: tile resolution preserves input order and length, passes normal
tiles' color and rank through unchanged, resolves each Joker marker to the
indicator color c and rank r, and resolves each FakeJoker marker to color c and
rank (r mod 13) + 1. -/
theorem tile_resolution (ps : List RawPiece) (c : String) (r : Int) :
    (buildTiles ps (some c) (some r)).length = ps.length ∧
    ∀ i, i < ps.length →
      tileAt (buildTiles ps (some c) (some r)) i =
        (if (ps.getD i ⟨"", none⟩).color = "okey" then
          { color := some c, number := some r, type := PieceType.okey }
        else if (ps.getD i ⟨"", none⟩).color = "fake_okey" then
          { color := some c, number := some (r % 13 + 1), type := PieceType.fakeOkey }
        else
          { color := some (ps.getD i ⟨"", none⟩).color,
            number := (ps.getD i ⟨"", none⟩).number, type := PieceType.piece }) := by
  refine ⟨by simp [buildTiles], fun i hi => ?_⟩
  rw [tileAt_buildTiles ps _ _ hi]
  simp only [mkPiece, Option.map_some']

theorem tile_resolution_witness :
    tileAt (buildTiles [⟨"okey", none⟩, ⟨"fake_okey", none⟩, ⟨"blue", some 5⟩]
        (some "red") (some 13)) 1 =
      { color := some "red", number := some 1, type := PieceType.fakeOkey } := by
  rw [(tile_resolution [⟨"okey", none⟩, ⟨"fake_okey", none⟩, ⟨"blue", some 5⟩]
    "red" 13).2 1 (by decide)]
  decide

lemma getD_map_of_lt {α β : Type} (f : α → β) (l : List α) (d : β) (d2 : α)
    {i : Nat} (hi : i < l.length) : (l.map f).getD i d = f (l.getD i d2) := by
  rw [List.getD_eq_getElem?_getD, List.getD_eq_getElem?_getD, List.getElem?_map,
    (List.getElem?_eq_some_getElem_iff l i hi).mpr trivial]
  rfl

/-- Claim C8: in the rendered response, every true Joker tile is rendered as
the fixed literal token "JOKER" regardless of its resolved color and rank, and
every other tile, including every FakeJoker, is rendered as its resolved color
followed by a space and its resolved rank. -/
theorem render_tokens (result : List (List Piece × Int)) (k t : Nat)
    (hk : k < result.length) (ht : t < (result.getD k ([], 0)).1.length) :
    ((processMelds result).getD k ([], 0)).1.getD t "" =
      (if ((result.getD k ([], 0)).1.getD t defaultPiece).type = PieceType.okey
       then "JOKER"
       else pyStrOfOptStr ((result.getD k ([], 0)).1.getD t defaultPiece).color ++
         " " ++ pyStrOfOptInt ((result.getD k ([], 0)).1.getD t defaultPiece).number) := by
  rw [processMelds, getD_map_of_lt (fun m => (m.1.map renderPiece, m.2))
    result ([], 0) ([], 0) hk]
  rw [getD_map_of_lt renderPiece (result.getD k ([], 0)).1 "" defaultPiece ht]
  rfl

theorem render_tokens_witness :
    ((processMelds [([(⟨some "red", some 9, PieceType.okey⟩ : Piece),
        (⟨some "red", some 10, PieceType.fakeOkey⟩ : Piece)],
        19)]).getD 0 ([], 0)).1.getD 1 "" = "red 10" := by
  rw [render_tokens [([(⟨some "red", some 9, PieceType.okey⟩ : Piece),
    (⟨some "red", some 10, PieceType.fakeOkey⟩ : Piece)], 19)]
    0 1 (by decide) (by decide)]
  decide

lemma length_windowRealIdxs_add (tiles : List Piece) (c : Option String)
    (start len : Nat) :
    (windowRealIdxs tiles c start len).length +
      ((List.range' start len).filter
        (fun n => decide (numToIdx tiles c ((n : Nat) : Int) = none))).length = len := by
  rw [windowRealIdxs]
  have key : ∀ l : List Nat,
      (l.filterMap (fun n => numToIdx tiles c ((n : Nat) : Int))).length +
        (l.filter (fun n => decide (numToIdx tiles c ((n : Nat) : Int) = none))).length =
      l.length := by
    intro l
    induction l with
    | nil => simp
    | cons a l ih =>
      cases hfa : numToIdx tiles c ((a : Nat) : Int) with
      | none =>
        rw [List.filterMap_cons, List.filter_cons]
        simp [hfa]
        omega
      | some b =>
        rw [List.filterMap_cons, List.filter_cons]
        simp [hfa]
        omega
  rw [key, List.length_range']

lemma windowRealIdxs_pos_iff (tiles : List Piece) (c : Option String)
    (start len : Nat) :
    1 ≤ (windowRealIdxs tiles c start len).length ↔
      ∃ n ∈ List.range' start len, numToIdx tiles c ((n : Nat) : Int) ≠ none := by
  constructor
  · intro hpos
    have hne : windowRealIdxs tiles c start len ≠ [] :=
      List.ne_nil_of_length_pos hpos
    obtain ⟨i, hi⟩ := List.exists_mem_of_ne_nil _ hne
    simp only [windowRealIdxs, List.mem_filterMap] at hi
    obtain ⟨n, hn, hsome⟩ := hi
    exact ⟨n, hn, by simp [hsome]⟩
  · rintro ⟨n, hn, hne⟩
    obtain ⟨i, hi⟩ := Option.ne_none_iff_exists'.mp hne
    have : i ∈ windowRealIdxs tiles c start len := by
      simp only [windowRealIdxs, List.mem_filterMap]
      exact ⟨n, hn, hi⟩
    have := List.length_pos.mpr (List.ne_nil_of_mem this)
    omega

lemma tileAt_mem {tiles : List Piece} {i : Nat} (hi : i < tiles.length) :
    tileAt tiles i ∈ tiles := by
  rw [tileAt, List.getD_eq_getElem?_getD,
    (List.getElem?_eq_some_getElem_iff tiles i hi).mpr trivial]
  exact List.getElem_mem hi

lemma color_mem_handColors {tiles : List Piece} {i : Nat} (hi : i < tiles.length)
    (ht : (tileAt tiles i).type ≠ .okey) :
    (tileAt tiles i).color ∈ handColors tiles := by
  rw [handColors, List.mem_dedup, List.mem_map]
  exact ⟨tileAt tiles i, List.mem_filter.mpr ⟨tileAt_mem hi, by simpa using ht⟩, rfl⟩

/-- Claim C6: for every hand, color, window length 3..13 and start rank fitting
in 1..13, the enumerator generates a Run candidate for that window exactly when
the number of window ranks with no real tile of that color is at most the total
joker count and at least one window rank has a real tile of that color; each
such candidate's weight equals the sum of all ranks in the window, independent
of which slots are joker-filled, and each is part of the enumerated Run
candidates. -/
theorem run_window_generation (tiles : List Piece) (c : Option String)
    (len start : Nat) (h3 : 3 ≤ len) (h13 : len ≤ 13) (h1 : 1 ≤ start)
    (h14 : start + len ≤ 14) :
    (runWindowMelds tiles c start len ≠ [] ↔
      (((List.range' start len).filter
          (fun n => decide (numToIdx tiles c ((n : Nat) : Int) = none))).length ≤
        (jokerIndices tiles).length ∧
        ∃ n ∈ List.range' start len, numToIdx tiles c ((n : Nat) : Int) ≠ none)) ∧
    (∀ m ∈ runWindowMelds tiles c start len,
      m.2 = ((List.range' start len).map (fun n => ((n : Nat) : Int))).sum) ∧
    (∀ m ∈ runWindowMelds tiles c start len, m ∈ runMelds tiles) := by
  have hmiss := length_windowRealIdxs_add tiles c start len
  refine ⟨?_, ?_, ?_⟩
  · by_cases hcond : len - (windowRealIdxs tiles c start len).length ≤
        (jokerIndices tiles).length ∧ 1 ≤ (windowRealIdxs tiles c start len).length
    · rw [runWindowMelds, if_pos hcond]
      have htake : (jokerIndices tiles).take
          (len - (windowRealIdxs tiles c start len).length) ∈
          List.sublistsLen (len - (windowRealIdxs tiles c start len).length)
            (jokerIndices tiles) :=
        List.mem_sublistsLen.mpr ⟨List.take_sublist _ _,
          List.length_take_of_le hcond.1⟩
      have hne : List.sublistsLen (len - (windowRealIdxs tiles c start len).length)
          (jokerIndices tiles) ≠ [] := List.ne_nil_of_mem htake
      constructor
      · intro _
        exact ⟨by omega, (windowRealIdxs_pos_iff tiles c start len).mp hcond.2⟩
      · intro _
        simpa [List.map_eq_nil_iff] using hne
    · rw [runWindowMelds, if_neg hcond]
      simp only [ne_eq, not_true_eq_false, false_iff]
      intro ⟨hA, hB⟩
      have hpos := (windowRealIdxs_pos_iff tiles c start len).mpr hB
      exact hcond ⟨by omega, hpos⟩
  · intro m hm
    obtain ⟨jc, hjc, hjl, hw, hpos, hmeq⟩ := runWindowMelds_shape hm
    rw [hmeq]
  · intro m hm
    obtain ⟨jc, hjc, hjl, hw, hpos, hmeq⟩ := runWindowMelds_shape hm
    obtain ⟨i, hi⟩ := List.exists_mem_of_ne_nil _ (List.ne_nil_of_length_pos hpos)
    obtain ⟨n, -, -, hsome⟩ := mem_windowRealIdxs hi
    obtain ⟨hlt, ht, hcol, -⟩ := numToIdx_spec hsome
    exact mem_runMelds_intro (hcol ▸ color_mem_handColors hlt ht) h3 h13 h1 h14 hm

theorem run_window_generation_witness :
    (runWindowMelds (buildTiles [⟨"red", some 7⟩, ⟨"red", some 8⟩, ⟨"okey", none⟩]
        (some "red") (some 9)) (some "red") 7 3 ≠ [] ↔
      (((List.range' 7 3).filter
          (fun n => decide (numToIdx (buildTiles [⟨"red", some 7⟩, ⟨"red", some 8⟩,
            ⟨"okey", none⟩] (some "red") (some 9)) (some "red")
            ((n : Nat) : Int) = none))).length ≤
        (jokerIndices (buildTiles [⟨"red", some 7⟩, ⟨"red", some 8⟩, ⟨"okey", none⟩]
          (some "red") (some 9))).length ∧
        ∃ n ∈ List.range' 7 3, numToIdx (buildTiles [⟨"red", some 7⟩,
          ⟨"red", some 8⟩, ⟨"okey", none⟩] (some "red") (some 9)) (some "red")
          ((n : Nat) : Int) ≠ none)) ∧
    (∀ m ∈ runWindowMelds (buildTiles [⟨"red", some 7⟩, ⟨"red", some 8⟩,
        ⟨"okey", none⟩] (some "red") (some 9)) (some "red") 7 3,
      m.2 = ((List.range' 7 3).map (fun n => ((n : Nat) : Int))).sum) ∧
    (∀ m ∈ runWindowMelds (buildTiles [⟨"red", some 7⟩, ⟨"red", some 8⟩,
        ⟨"okey", none⟩] (some "red") (some 9)) (some "red") 7 3,
      m ∈ runMelds (buildTiles [⟨"red", some 7⟩, ⟨"red", some 8⟩, ⟨"okey", none⟩]
        (some "red") (some 9))) :=
  run_window_generation _ (some "red") 3 7 (by decide) (by decide) (by decide)
    (by decide)

/-- Claim C10: when a hand contains two or more non-joker tiles with the same
color and the same rank, only the tile with the largest hand index among them
can ever appear in a Run candidate: a lower-indexed duplicate is excluded from
every Run candidate, though it remains in the pool available to Set
candidates for its rank. -/
theorem run_excludes_lower_duplicate (tiles : List Piece) (i j : Nat)
    (hij : j < i) (hi : i < tiles.length)
    (hjt : (tileAt tiles j).type ≠ .okey) (hit : (tileAt tiles i).type ≠ .okey)
    (hc : (tileAt tiles i).color = (tileAt tiles j).color)
    (hn : (tileAt tiles i).number = (tileAt tiles j).number) :
    (∀ m ∈ runMelds tiles, j ∉ m.1) ∧
    (∀ num : Int, (tileAt tiles j).number = some num → j ∈ setRealIdxs tiles num) := by
  constructor
  · intro m hm hjm
    obtain ⟨c, start, len, -, -, -, -, -, hwin⟩ := runMelds_shape hm
    obtain ⟨jokerComb, hjc, -, -, -, hmeq⟩ := runWindowMelds_shape hwin
    rw [hmeq] at hjm
    have hjm2 : j ∈ windowRealIdxs tiles c start len ++ jokerComb :=
      (List.perm_insertionSort _ _).subset hjm
    rcases List.mem_append.mp hjm2 with hreal | hjok
    · obtain ⟨n, -, -, hidx⟩ := mem_windowRealIdxs hreal
      have hspec := numToIdx_spec hidx
      have hle : i ≤ j := numToIdx_last hidx hi hit (hc.trans hspec.2.2.1)
        (hn.trans hspec.2.2.2)
      omega
    · exact hjt (mem_jokerIndices.mp (hjc.subset hjok)).2
  · intro num hnum
    exact mem_setRealIdxs.mpr ⟨by omega, hjt, hnum⟩

theorem run_excludes_lower_duplicate_witness :
    (∀ m ∈ runMelds (buildTiles [⟨"red", some 5⟩, ⟨"red", some 5⟩, ⟨"red", some 6⟩,
        ⟨"red", some 7⟩] (some "green") (some 1)), 0 ∉ m.1) ∧
    (∀ num : Int, (tileAt (buildTiles [⟨"red", some 5⟩, ⟨"red", some 5⟩,
          ⟨"red", some 6⟩, ⟨"red", some 7⟩] (some "green") (some 1)) 0).number =
        some num →
      0 ∈ setRealIdxs (buildTiles [⟨"red", some 5⟩, ⟨"red", some 5⟩,
        ⟨"red", some 6⟩, ⟨"red", some 7⟩] (some "green") (some 1)) num) :=
  run_excludes_lower_duplicate _ 1 0 (by decide) (by decide) (by decide) (by decide)
    (by decide) (by decide)

/-- Claim C2 (amended): every Set meld produced by the enumerator has size 3
or 4 and a single common rank shared by all non-joker members; its non-joker
members have pairwise-distinct colors whenever the hand contains no two
non-joker tiles with equal color and rank, but the enumerator applies no
distinct-color filter, so hands with two same-rank same-color tiles can yield
Set candidates with repeated colors. -/
theorem setMeld_shape_valid (tiles : List Piece) (m : List Nat × Int)
    (hm : m ∈ setMelds tiles) :
    (m.1.length = 3 ∨ m.1.length = 4) ∧
    (∃ num : Nat, 1 ≤ num ∧ num ≤ 13 ∧
      ∀ i ∈ m.1, (tileAt tiles i).type ≠ .okey →
        (tileAt tiles i).number = some ((num : Nat) : Int)) ∧
    ((nonJokerIndices tiles).Pairwise (fun i j =>
        ¬((tileAt tiles i).color = (tileAt tiles j).color ∧
          (tileAt tiles i).number = (tileAt tiles j).number)) →
      (m.1.filter (fun i => decide ((tileAt tiles i).type ≠ .okey))).Pairwise
        (fun i j => (tileAt tiles i).color ≠ (tileAt tiles j).color)) := by
  obtain ⟨num, h1, h13, hmf⟩ := mem_setMelds.mp hm
  obtain ⟨rc, jc, hrc, hjc, hr1, h3, h4, hmeq⟩ := setMeldsFor_shape hmf
  subst hmeq
  refine ⟨by simp only [List.length_append]; omega, ⟨num, h1, h13, ?_⟩, ?_⟩
  · intro i hi hti
    rcases List.mem_append.mp hi with hir | hij
    · exact (mem_setRealIdxs.mp (hrc.subset hir)).2.2
    · exact absurd (mem_jokerIndices.mp (hjc.subset hij)).2 hti
  · intro hnodupCR
    have hfilter : ((rc ++ jc).filter
        (fun i => decide ((tileAt tiles i).type ≠ .okey))) = rc := by
      rw [List.filter_append]
      have e1 : rc.filter (fun i => decide ((tileAt tiles i).type ≠ .okey)) = rc :=
        List.filter_eq_self.mpr (fun a ha => by
          simpa using (mem_setRealIdxs.mp (hrc.subset ha)).2.1)
      have e2 : jc.filter (fun i => decide ((tileAt tiles i).type ≠ .okey)) = [] :=
        List.filter_eq_nil_iff.mpr (fun a ha => by
          simpa using (mem_jokerIndices.mp (hjc.subset ha)).2)
      rw [e1, e2, List.append_nil]
    have hsub : rc.Sublist (nonJokerIndices tiles) :=
      hrc.trans (List.filter_sublist _)
    have hpw := List.Pairwise.sublist hsub hnodupCR
    have hgoal : rc.Pairwise
        (fun i j => (tileAt tiles i).color ≠ (tileAt tiles j).color) := by
      refine List.Pairwise.imp_of_mem ?_ hpw
      intro a b ha hb hR hcoleq
      refine hR ⟨hcoleq, ?_⟩
      rw [(mem_setRealIdxs.mp (hrc.subset ha)).2.2,
        (mem_setRealIdxs.mp (hrc.subset hb)).2.2]
    show ((rc ++ jc).filter
      (fun i => decide ((tileAt tiles i).type ≠ .okey))).Pairwise _
    rw [hfilter]
    exact hgoal

theorem setMeld_shape_valid_witness :
    (([0, 1, 2] : List Nat).length = 3 ∨ ([0, 1, 2] : List Nat).length = 4) ∧
    (∃ num : Nat, 1 ≤ num ∧ num ≤ 13 ∧
      ∀ i ∈ ([0, 1, 2] : List Nat),
        (tileAt (buildTiles [⟨"red", some 5⟩, ⟨"blue", some 5⟩, ⟨"black", some 5⟩]
          (some "green") (some 1)) i).type ≠ .okey →
        (tileAt (buildTiles [⟨"red", some 5⟩, ⟨"blue", some 5⟩, ⟨"black", some 5⟩]
          (some "green") (some 1)) i).number = some ((num : Nat) : Int)) ∧
    ((nonJokerIndices (buildTiles [⟨"red", some 5⟩, ⟨"blue", some 5⟩,
        ⟨"black", some 5⟩] (some "green") (some 1))).Pairwise (fun i j =>
        ¬((tileAt (buildTiles [⟨"red", some 5⟩, ⟨"blue", some 5⟩,
            ⟨"black", some 5⟩] (some "green") (some 1)) i).color =
          (tileAt (buildTiles [⟨"red", some 5⟩, ⟨"blue", some 5⟩,
            ⟨"black", some 5⟩] (some "green") (some 1)) j).color ∧
          (tileAt (buildTiles [⟨"red", some 5⟩, ⟨"blue", some 5⟩,
            ⟨"black", some 5⟩] (some "green") (some 1)) i).number =
          (tileAt (buildTiles [⟨"red", some 5⟩, ⟨"blue", some 5⟩,
            ⟨"black", some 5⟩] (some "green") (some 1)) j).number)) →
      (([0, 1, 2] : List Nat).filter (fun i =>
          decide ((tileAt (buildTiles [⟨"red", some 5⟩, ⟨"blue", some 5⟩,
            ⟨"black", some 5⟩] (some "green") (some 1)) i).type ≠ .okey))).Pairwise
        (fun i j => (tileAt (buildTiles [⟨"red", some 5⟩, ⟨"blue", some 5⟩,
            ⟨"black", some 5⟩] (some "green") (some 1)) i).color ≠
          (tileAt (buildTiles [⟨"red", some 5⟩, ⟨"blue", some 5⟩,
            ⟨"black", some 5⟩] (some "green") (some 1)) j).color)) :=
  setMeld_shape_valid _ ([0, 1, 2], (15 : Int)) (by decide)

/-- Claim C2 counterexample: on the hand [red 5, red 5, blue 5] the enumerator
produces the Set candidate with indices {0, 1, 2} (the whole returned optimum),
whose two distinct non-joker members 0 and 1 both have color red, refuting
pairwise-distinct member colors. -/
theorem setMeld_duplicate_colors_cex :
    ([0, 1, 2], (15 : Int)) ∈ setMelds (buildTiles [⟨"red", some 5⟩,
      ⟨"red", some 5⟩, ⟨"blue", some 5⟩] (some "green") (some 1)) ∧
    isOptimal (buildTiles [⟨"red", some 5⟩, ⟨"red", some 5⟩, ⟨"blue", some 5⟩]
      (some "green") (some 1)) [true] ∧
    chosen (enumerateMelds (buildTiles [⟨"red", some 5⟩, ⟨"red", some 5⟩,
      ⟨"blue", some 5⟩] (some "green") (some 1))) [true] = [([0, 1, 2], 15)] ∧
    (tileAt (buildTiles [⟨"red", some 5⟩, ⟨"red", some 5⟩, ⟨"blue", some 5⟩]
      (some "green") (some 1)) 0).type ≠ PieceType.okey ∧
    (tileAt (buildTiles [⟨"red", some 5⟩, ⟨"red", some 5⟩, ⟨"blue", some 5⟩]
      (some "green") (some 1)) 1).type ≠ PieceType.okey ∧
    (tileAt (buildTiles [⟨"red", some 5⟩, ⟨"red", some 5⟩, ⟨"blue", some 5⟩]
      (some "green") (some 1)) 0).color =
      (tileAt (buildTiles [⟨"red", some 5⟩, ⟨"red", some 5⟩, ⟨"blue", some 5⟩]
        (some "green") (some 1)) 1).color := by decide

/-- Claim C3 counterexample: the request [red 99, purple 5] with indicator
green 1 contains a malformed rank (99 is outside 1..13) and an unrecognized
color ("purple"), yet no validation failure is reported: the tiles are built
as ordinary pieces carrying the malformed values, solving proceeds, and the
handler returns an ordinary success response. -/
theorem no_validation_cex :
    buildTiles [⟨"red", some 99⟩, ⟨"purple", some 5⟩] (some "green") (some 1) =
      [(⟨some "red", some 99, PieceType.piece⟩ : Piece),
       (⟨some "purple", some 5, PieceType.piece⟩ : Piece)] ∧
    isOptimal (buildTiles [⟨"red", some 99⟩, ⟨"purple", some 5⟩] (some "green")
      (some 1)) [] ∧
    solveHandler [⟨"red", some 99⟩, ⟨"purple", some 5⟩] "green" 1 [] =
      { melds := [], total_score := 0, can_open := false,
        number_of_triples := 0, number_of_sides := 0 } := by decide

/-- Claim C3 (amended): the system performs no tile validation: every
descriptor whose color is not a joker marker is constructed as an ordinary
tile with its color and rank passed through unchanged, whatever rank or color
it carries, and tile construction never rejects a request (the built hand
always has the request's length), so enumeration and solving proceed; all
handler failures share the single undifferentiated failure kind (HTTP 500),
so no validation failure distinguishable from a solver failure exists. -/
theorem no_validation (color : String) (number : Option Int) (c : Option String)
    (r : Option Int) (h1 : color ≠ "okey") (h2 : color ≠ "fake_okey") :
    mkPiece color number c r = ⟨some color, number, PieceType.piece⟩ ∧
    ∀ ps : List RawPiece, (buildTiles ps c r).length = ps.length := by
  constructor
  · rw [mkPiece, if_neg h1, if_neg h2]
  · intro ps
    simp [buildTiles]

theorem no_validation_witness :
    mkPiece "red" (some 99) (some "green") (some 1) =
      ⟨some "red", some 99, PieceType.piece⟩ ∧
    ∀ ps : List RawPiece,
      (buildTiles ps (some "green") (some 1)).length = ps.length :=
  no_validation "red" (some 99) (some "green") (some 1) (by decide) (by decide)

/-- Claim C9 counterexample: on the hand [Joker, red 5, blue 5] with indicator
green 4, the only candidate is the Set with index list [1, 2, 0] (real tiles
first, then the joker), which the optimal assignment returns; its backing index
sequence is not strictly increasing. -/
theorem meld_index_order_cex :
    isOptimal (buildTiles [⟨"okey", none⟩, ⟨"red", some 5⟩, ⟨"blue", some 5⟩]
      (some "green") (some 4)) [true] ∧
    chosen (enumerateMelds (buildTiles [⟨"okey", none⟩, ⟨"red", some 5⟩,
      ⟨"blue", some 5⟩] (some "green") (some 4))) [true] = [([1, 2, 0], 15)] ∧
    ¬ List.Sorted (· < ·) ([1, 2, 0] : List Nat) := by decide

/-- Claim C9 (amended): within every returned meld the tiles keep the
enumerator's index order, which is the hand's original index order for Run
melds (their index lists are strictly increasing after sorting), while Set
melds list the real tiles in increasing hand order followed by the chosen
jokers in increasing hand order, a sequence that need not be globally
increasing; every returned meld is one of these two kinds. -/
theorem meld_index_order (tiles : List Piece) (m : List Nat × Int) :
    (m ∈ setMelds tiles →
      ∃ realComb jokerComb : List Nat,
        m.1 = realComb ++ jokerComb ∧
        List.Sorted (· < ·) realComb ∧ List.Sorted (· < ·) jokerComb ∧
        (∀ i ∈ realComb, (tileAt tiles i).type ≠ .okey) ∧
        (∀ i ∈ jokerComb, (tileAt tiles i).type = .okey)) ∧
    (m ∈ runMelds tiles → List.Sorted (· < ·) m.1) ∧
    (∀ sel : List Bool, m ∈ chosen (enumerateMelds tiles) sel →
      m ∈ setMelds tiles ∨ m ∈ runMelds tiles) := by
  refine ⟨?_, ?_, ?_⟩
  · intro hm
    obtain ⟨num, h1, h13, hmf⟩ := mem_setMelds.mp hm
    obtain ⟨rc, jc, hrc, hjc, hr1, h3, h4, hmeq⟩ := setMeldsFor_shape hmf
    refine ⟨rc, jc, by rw [hmeq], ?_, ?_, ?_, ?_⟩
    · exact List.Pairwise.sublist hrc (sorted_setRealIdxs tiles _)
    · exact List.Pairwise.sublist hjc (sorted_jokerIndices tiles)
    · exact fun i hi => (mem_setRealIdxs.mp (hrc.subset hi)).2.1
    · exact fun i hi => (mem_jokerIndices.mp (hjc.subset hi)).2
  · intro hm
    obtain ⟨c, start, len, hc, h3, h13, h1, h14, hwin⟩ := runMelds_shape hm
    have hnodup := (runWindowMelds_nodup_bound hwin).1
    obtain ⟨jc, hjc, hjl, hw, hpos, hmeq⟩ := runWindowMelds_shape hwin
    rw [hmeq]
    rw [hmeq] at hnodup
    exact List.Sorted.lt_of_le (List.sorted_insertionSort _ _) hnodup
  · intro sel hm
    exact List.mem_append.mp (chosen_subset hm)

theorem meld_index_order_witness :
    ∃ realComb jokerComb : List Nat,
      ([1, 2, 0] : List Nat) = realComb ++ jokerComb ∧
      List.Sorted (· < ·) realComb ∧ List.Sorted (· < ·) jokerComb ∧
      (∀ i ∈ realComb,
        (tileAt (buildTiles [⟨"okey", none⟩, ⟨"red", some 5⟩, ⟨"blue", some 5⟩]
          (some "green") (some 4)) i).type ≠ .okey) ∧
      (∀ i ∈ jokerComb,
        (tileAt (buildTiles [⟨"okey", none⟩, ⟨"red", some 5⟩, ⟨"blue", some 5⟩]
          (some "green") (some 4)) i).type = .okey) :=
  (meld_index_order (buildTiles [⟨"okey", none⟩, ⟨"red", some 5⟩,
    ⟨"blue", some 5⟩] (some "green") (some 4)) ([1, 2, 0], 15)).1 (by decide)

end Okey
